import Mathlib

/-!
Shallow embedding of the grading-agent repository's bibliography-verification
and grading-result-parsing core (`bibliography.py`, `tools.py`, `agent.py`),
together with theorems settling the frozen claims about it.

External effects are made explicit:
- the LLM service (`_invoke_llm`) is a parameter `llm : String → String`
  from prompt text to response text (a deterministic judge);
- the web-search call is a parameter of type `SearchOutcome` (it can return a
  list of URLs, time out, or raise);
- the `time.sleep(0.5)` rate-limit delay is recorded as a `Bool` component of
  the searcher's result (`true` when the sleep was executed);
- Python exceptions that can escape a function are modelled with `Except PyErr`;
- the as-issued web-search calls of the pipeline are returned as a trace list.
-/

set_option autoImplicit false

namespace GradingAgent

/-- Model of the values Python's `json.loads` produces. JSON numbers are
modelled as integers (no claim involves fractional numbers); object fields keep
their textual order and duplicate keys are resolved last-wins, as in Python. -/
inductive JValue where
  | null
  | bool (b : Bool)
  | num (n : Int)
  | str (s : String)
  | arr (elems : List JValue)
  | obj (fields : List (String × JValue))

/-- Python exceptions that the embedded code can raise. -/
inductive PyErr where
  | keyError (k : String)
  | typeError (msg : String)
  deriving DecidableEq, Repr

/-! ## Python string primitives (over `List Char`) -/

/-- Whitespace for Python's `str.strip`. -/
def pyIsSpace (c : Char) : Bool :=
  c = ' ' ∨ c = '\t' ∨ c = '\n' ∨ c = '\r' ∨ c = '\x0b' ∨ c = '\x0c'

/-- Model of Python's `str.strip()`. -/
def pyStrip (s : List Char) : List Char :=
  ((s.dropWhile pyIsSpace).reverse.dropWhile pyIsSpace).reverse

/-- Index of the first occurrence of `pat` in `s`, if any. -/
def firstOcc (pat : List Char) : List Char → Option Nat
  | [] => if pat.isPrefixOf ([] : List Char) then some 0 else none
  | c :: rest =>
    if pat.isPrefixOf (c :: rest) then some 0
    else (firstOcc pat rest).map (· + 1)

/-- Model of Python's `in` substring test. -/
def isSubstr (pat s : List Char) : Bool :=
  (firstOcc pat s).isSome

/-- The part of `s` before the first occurrence of `pat` (all of `s` if none). -/
def beforeFirst (pat s : List Char) : List Char :=
  match firstOcc pat s with
  | none => s
  | some i => s.take i

/-- The part of `s` after the first occurrence of `pat` (all of `s` if none). -/
def afterFirst (pat s : List Char) : List Char :=
  match firstOcc pat s with
  | none => s
  | some i => s.drop (i + pat.length)

/-- Fuel-driven worker for `pySplit`. -/
def pySplitFuel (pat : List Char) : Nat → List Char → List (List Char)
  | 0, s => [s]
  | fuel + 1, s =>
    match firstOcc pat s with
    | none => [s]
    | some i => s.take i :: pySplitFuel pat fuel (s.drop (i + pat.length))

/-- Model of Python's `str.split(sep)` for a non-empty separator: the pieces of
`s` between consecutive non-overlapping occurrences of `pat`, scanned left to
right. -/
def pySplit (pat s : List Char) : List (List Char) :=
  pySplitFuel pat (s.length + 1) s

/-! ## Model of `json.loads` -/

/-- JSON insignificant whitespace. -/
def jsonWs (c : Char) : Bool :=
  c = ' ' ∨ c = '\t' ∨ c = '\n' ∨ c = '\r'

/-- Skip JSON whitespace. -/
def skipWs (s : List Char) : List Char :=
  s.dropWhile jsonWs

/-- Hexadecimal digit value, if `c` is a hex digit. -/
def hexVal (c : Char) : Option Nat :=
  if c.isDigit then some (c.toNat - '0'.toNat)
  else if 'a' ≤ c ∧ c ≤ 'f' then some (c.toNat - 'a'.toNat + 10)
  else if 'A' ≤ c ∧ c ≤ 'F' then some (c.toNat - 'A'.toNat + 10)
  else none

/-- Decode one JSON escape sequence: the escape selector character and the
input following it give the decoded character and how many further input
characters the escape consumed (4 for a unicode escape, 0 otherwise). -/
def decodeEscape : Char → List Char → Except String (Char × Nat)
  | '"', _ => .ok ('"', 0)
  | '\\', _ => .ok ('\\', 0)
  | '/', _ => .ok ('/', 0)
  | 'b', _ => .ok ('\x08', 0)
  | 'f', _ => .ok ('\x0c', 0)
  | 'n', _ => .ok ('\n', 0)
  | 'r', _ => .ok ('\r', 0)
  | 't', _ => .ok ('\t', 0)
  | 'u', a :: b :: c :: d :: _ =>
    match hexVal a, hexVal b, hexVal c, hexVal d with
    | some x, some y, some z, some w =>
      .ok (Char.ofNat (4096 * x + 256 * y + 16 * z + w), 4)
    | _, _, _, _ => .error "Invalid unicode escape"
  | _, _ => .error "Invalid escape"

/-- Decode one JSON string body (after the opening quote), returning the
decoded characters and the input past the closing quote. Fuel-driven so that
the definition evaluates by kernel reduction; one unit of fuel is spent per
consumed input character. -/
def parseStrBody : Nat → List Char → Except String (List Char × List Char)
  | _, [] => .error "Unterminated string"
  | _, '"' :: rest => .ok ([], rest)
  | 0, _ => .error "Out of fuel"
  | fuel + 1, '\\' :: e :: rest => do
    let (c, k) ← decodeEscape e rest
    let (cs, r') ← parseStrBody fuel (rest.drop k)
    .ok (c :: cs, r')
  | fuel + 1, c :: rest => do
    let (cs, r) ← parseStrBody fuel rest
    .ok (c :: cs, r)

/-- Read a run of decimal digits. -/
def takeDigits (s : List Char) : List Char × List Char :=
  (s.takeWhile Char.isDigit, s.dropWhile Char.isDigit)

/-- Value of a digit run. -/
def digitsVal (ds : List Char) : Nat :=
  ds.foldl (fun acc c => 10 * acc + (c.toNat - '0'.toNat)) 0

/-- Parse a JSON number. The model covers integer literals only and rejects
fractions and exponents (no claim involves non-integer numbers). -/
def parseNum (s : List Char) : Except String (JValue × List Char) :=
  let (neg, s') := match s with
    | '-' :: rest => (true, rest)
    | _ => (false, s)
  match takeDigits s' with
  | ([], _) => .error "Expecting value"
  | (ds, rest) =>
    match rest with
    | '.' :: _ => .error "Non-integer numbers are outside this model"
    | 'e' :: _ => .error "Non-integer numbers are outside this model"
    | 'E' :: _ => .error "Non-integer numbers are outside this model"
    | _ =>
      let n : Int := Int.ofNat (digitsVal ds)
      .ok (.num (if neg then -n else n), rest)

mutual

/-- Recursive-descent JSON value parser (fuel-driven). -/
def parseVal : Nat → List Char → Except String (JValue × List Char)
  | 0, _ => .error "Out of fuel"
  | fuel + 1, s =>
    match skipWs s with
    | [] => .error "Expecting value"
    | '"' :: rest => do
      let (cs, r) ← parseStrBody fuel rest
      .ok (.str (String.mk cs), r)
    | '[' :: rest =>
      (match skipWs rest with
       | ']' :: r => .ok (.arr [], r)
       | r => do
         let (vs, r') ← parseArrItems fuel r
         .ok (.arr vs, r'))
    | '{' :: rest =>
      (match skipWs rest with
       | '}' :: r => .ok (.obj [], r)
       | r => do
         let (fs, r') ← parseObjItems fuel r
         .ok (.obj fs, r'))
    | 't' :: rest =>
      if ['r', 'u', 'e'].isPrefixOf rest then .ok (.bool true, rest.drop 3)
      else .error "Expecting value"
    | 'f' :: rest =>
      if ['a', 'l', 's', 'e'].isPrefixOf rest then .ok (.bool false, rest.drop 4)
      else .error "Expecting value"
    | 'n' :: rest =>
      if ['u', 'l', 'l'].isPrefixOf rest then .ok (.null, rest.drop 3)
      else .error "Expecting value"
    | s' => parseNum s'

/-- Parse the comma-separated items of a non-empty JSON array, up to and
including the closing bracket. -/
def parseArrItems : Nat → List Char → Except String (List JValue × List Char)
  | 0, _ => .error "Out of fuel"
  | fuel + 1, s => do
    let (v, r) ← parseVal fuel s
    match skipWs r with
    | ',' :: r' => do
      let (vs, r'') ← parseArrItems fuel r'
      .ok (v :: vs, r'')
    | ']' :: r' => .ok ([v], r')
    | _ => .error "Expecting comma or bracket"

/-- Parse the comma-separated fields of a non-empty JSON object, up to and
including the closing brace. -/
def parseObjItems : Nat → List Char → Except String (List (String × JValue) × List Char)
  | 0, _ => .error "Out of fuel"
  | fuel + 1, s => do
    match skipWs s with
    | '"' :: rest => do
      let (k, r) ← parseStrBody fuel rest
      match skipWs r with
      | ':' :: r' => do
        let (v, r'') ← parseVal fuel r'
        match skipWs r'' with
        | ',' :: r3 => do
          let (fs, r4) ← parseObjItems fuel r3
          .ok ((String.mk k, v) :: fs, r4)
        | '}' :: r3 => .ok ([(String.mk k, v)], r3)
        | _ => .error "Expecting comma or brace"
      | _ => .error "Expecting colon"
    | _ => .error "Expecting property name"

end

/-- Model of Python's `json.loads`: parse one JSON value, allowing surrounding
whitespace only, and report any malformation as an error value. -/
def jsonLoads (s : List Char) : Except String JValue := do
  let (v, rest) ← parseVal (2 * s.length + 2) s
  match skipWs rest with
  | [] => .ok v
  | _ => .error "Extra data"

/-! ## Python value helpers -/

/-- Lookup in the fields of a JSON object, resolving duplicate keys last-wins
as Python's `json.loads` does when building a `dict`. -/
def objGet (fields : List (String × JValue)) (key : String) : Option JValue :=
  match fields with
  | [] => none
  | (k, v) :: rest =>
    match objGet rest key with
    | some r => some r
    | none => if k = key then some v else none

/-- Python's `d.get(key, default)` on a parsed JSON value: meaningful for
objects, the default otherwise. -/
def dictGet (v : JValue) (key : String) (dflt : JValue) : JValue :=
  match v with
  | .obj fs => (objGet fs key).getD dflt
  | _ => dflt

/-- Python equality between an arbitrary (hashable) parsed JSON value and a
string: only equal-text strings compare equal. -/
def keyEqStr (k : JValue) (key : String) : Bool :=
  match k with
  | .str s => s = key
  | _ => false

/-- Lookup of a string key in the `llm_map` dict (whose keys are arbitrary
parsed values), duplicate insertions resolved last-wins as in Python. -/
def mapLookup (m : List (JValue × JValue)) (key : String) : Option JValue :=
  match m with
  | [] => none
  | (k, v) :: rest =>
    match mapLookup rest key with
    | some r => some r
    | none => if keyEqStr k key then some v else none

/-- Whether a parsed JSON value may be a Python `dict` key (lists and dicts
are unhashable). -/
def hashableKey : JValue → Bool
  | .arr _ => false
  | .obj _ => false
  | _ => true

mutual

/-- Model of Python's `str()` on a parsed JSON value. -/
def pyStr : JValue → String
  | .null => "None"
  | .bool true => "True"
  | .bool false => "False"
  | .num n => toString n
  | .str s => s
  | .arr xs => "[" ++ pyReprList xs ++ "]"
  | .obj fs => "\x7b" ++ pyReprFields fs ++ "\x7d"

/-- Model of Python's `repr()` on a parsed JSON value: as `str()` except that
strings come out quoted. -/
def pyRepr : JValue → String
  | .str s => "'" ++ s ++ "'"
  | .null => "None"
  | .bool true => "True"
  | .bool false => "False"
  | .num n => toString n
  | .arr xs => "[" ++ pyReprList xs ++ "]"
  | .obj fs => "\x7b" ++ pyReprFields fs ++ "\x7d"
  termination_by structural v => v

/-- Comma-separated `repr`s of list elements. -/
def pyReprList : List JValue → String
  | [] => ""
  | [x] => pyRepr x
  | x :: xs => pyRepr x ++ ", " ++ pyReprList xs
  termination_by structural l => l

/-- Comma-separated `repr`s of dict entries. -/
def pyReprFields : List (String × JValue) → String
  | [] => ""
  | [(k, v)] => "'" ++ k ++ "': " ++ pyRepr v
  | (k, v) :: fs => "'" ++ k ++ "': " ++ pyRepr v ++ ", " ++ pyReprFields fs
  termination_by structural l => l

end

/-- JSON string escaping used by the serializer model. -/
def escChar (c : Char) : String :=
  if c = '"' then "\\\""
  else if c = '\\' then "\\\\"
  else if c = '\n' then "\\n"
  else if c = '\t' then "\\t"
  else if c = '\r' then "\\r"
  else String.singleton c

mutual

/-- Model of Python's `json.dumps`. The `indent=2` whitespace layout of the
source is not reproduced (no claim depends on the prompt's exact bytes, only
on the prompt being a function of the serialized records). -/
def dumps : JValue → String
  | .null => "null"
  | .bool true => "true"
  | .bool false => "false"
  | .num n => toString n
  | .str s => "\"" ++ String.join (s.data.map escChar) ++ "\""
  | .arr xs => "[" ++ dumpsList xs ++ "]"
  | .obj fs => "\x7b" ++ dumpsFields fs ++ "\x7d"
  termination_by structural v => v

/-- Comma-separated serialized list elements. -/
def dumpsList : List JValue → String
  | [] => ""
  | [x] => dumps x
  | x :: xs => dumps x ++ ", " ++ dumpsList xs
  termination_by structural l => l

/-- Comma-separated serialized object fields. -/
def dumpsFields : List (String × JValue) → String
  | [] => ""
  | [(k, v)] => "\"" ++ k ++ "\": " ++ dumps v
  | (k, v) :: fs => "\"" ++ k ++ "\": " ++ dumps v ++ ", " ++ dumpsFields fs
  termination_by structural l => l

end

/-! ## Data model: reference records and search outcomes -/

/-- The record dict built by `search_single_reference`. The `verified` and
`notes` fields hold arbitrary Python values because the LLM-merge step stores
whatever the parsed verdict contains. -/
structure RefRecord where
  reference : String
  verified : JValue
  search_urls : List String
  notes : JValue

/-- Behaviour of one underlying `googlesearch.search` call: it can return a
list of URLs, exceed the 10-second `future.result` timeout, or raise. -/
inductive SearchOutcome where
  | success (urls : List String)
  | timeout
  | failure (msg : String)

/-- Embedding of `bibliography.search_single_reference`. The second component
records whether `time.sleep(0.5)` was executed on that path. The function is
total: every failure of the underlying call is absorbed into the record,
mirroring the `try/except` structure of the source. -/
def search_single_reference (outcome : SearchOutcome) (reference : String) :
    RefRecord × Bool :=
  let result : RefRecord :=
    { reference := reference, verified := .bool false, search_urls := [], notes := .str "" }
  match outcome with
  | .timeout => ({ result with notes := .str "Search timed out." }, false)
  | .failure e => ({ result with notes := .str ("Search failed: " ++ e) }, false)
  | .success [] =>
    ({ result with
        search_urls := ([] : List String),
        notes := .str "No search results found. Reference may not exist." }, true)
  | .success (u :: us) =>
    ({ result with
        search_urls := u :: us,
        notes := .str ("Found " ++ toString (u :: us).length ++ " search results.") }, true)

/-- Numbered URL lines of the tool summary, one-based. -/
def numberedLines : Nat → List String → String
  | _, [] => ""
  | i, u :: us => "  " ++ toString i ++ ". " ++ u ++ "\n" ++ numberedLines (i + 1) us

/-- Embedding of `tools.search_reference` (the agent-tool variant). The second
component records whether `time.sleep(0.5)` was executed on that path. -/
def search_reference (outcome : SearchOutcome) (reference : String) :
    String × Bool :=
  match outcome with
  | .timeout =>
    ("Search timed out for '" ++ reference ++ "'. Could not verify this reference.", false)
  | .failure e =>
    ("Search failed for '" ++ reference ++ "': " ++ e ++ ". Could not verify this reference.",
     false)
  | .success [] =>
    ("NO RESULTS FOUND for: '" ++ reference ++
       "'. This reference may not exist or may be incorrectly cited.", true)
  | .success (u :: us) =>
    ("Search results for: '" ++ reference ++ "':\n" ++ numberedLines 1 (u :: us) ++
       "\nBased on these results, assess whether the reference is real " ++
       "and correctly cited (authors, year, title, journal).", true)

/-! ## The structured-response parser -/

/-- The `"```json"` opening-fence token. -/
def jsonFenceTok : List Char := "```json".data

/-- The plain `"```"` fence token. -/
def fenceTok : List Char := "```".data

/-- The candidate-substring selection shared verbatim by
`bibliography._parse_json_from_text` and the inline parsing in
`agent.grade_essay`: `text.split("```json")[1].split("```")[0]`, or
`text.split("```")[1].split("```")[0]`, or the text itself. -/
def extractCandidate (t : List Char) : List Char :=
  if isSubstr jsonFenceTok t then
    (pySplit fenceTok ((pySplit jsonFenceTok t).getD 1 [])).getD 0 []
  else if isSubstr fenceTok t then
    (pySplit fenceTok ((pySplit fenceTok t).getD 1 [])).getD 0 []
  else t

/-- Embedding of `bibliography._parse_json_from_text`: strip, select the
candidate substring, strip again, and JSON-parse; parse problems are an
`Except.error`, never an exception. -/
def parse_json_from_text (text : String) : Except String JValue :=
  let t := pyStrip text.data
  jsonLoads (pyStrip (extractCandidate t))

/-! ## Reference extractor -/

/-- The extraction prompt of `extract_references_with_llm`. -/
def extractPrompt (essay_text : String) : String :=
  "Extract ALL bibliographic references from the following essay text. " ++
  "Return ONLY a JSON array of strings, where each string is one full reference " ++
  "exactly as it appears in the essay. If there are no references, return an empty array [].\n\n" ++
  "Essay text:\n" ++ essay_text

/-- Embedding of `bibliography.extract_references_with_llm` with the LLM
service as a parameter from prompt to response. A response that fails to
parse, or parses to a non-array, yields `[]`; array elements are passed
through `str()`. No exception can escape. -/
def extract_references_with_llm (llm : String → String) (essay_text : String) :
    List String :=
  match parse_json_from_text (llm (extractPrompt essay_text)) with
  | .ok (.arr rs) => rs.map pyStr
  | _ => []

/-! ## Reference verifier -/

/-- The per-record detail dict serialized into the verification prompt. -/
def refDetail (r : RefRecord) : JValue :=
  .obj [("reference", .str r.reference),
        ("search_urls", .arr (r.search_urls.map .str)),
        ("search_notes", r.notes)]

/-- The verification prompt of `verify_references_with_llm`, built over every
input record. -/
def verifyPrompt (references : List RefRecord) : String :=
  "You are verifying bibliographic references. For each reference below, " ++
  "I provide the Google search result URLs. Assess whether the reference " ++
  "is likely REAL and correctly cited (correct authors, year, title, journal/publisher). " ++
  "Be skeptical - if the URLs don't clearly confirm the reference, mark it unverified.\n\n" ++
  "References:\n" ++ dumps (.arr (references.map refDetail)) ++ "\n\n" ++
  "Respond with a JSON array where each element has:\n" ++
  "  \x7b\"reference\": \"...\", \"verified\": true/false, \"notes\": \"explanation\"\x7d\n" ++
  "Return ONLY the JSON array."

/-- The note marker appended when the verifier's response fails to parse. -/
def llmFailMarker : String := " (LLM verification failed to parse)"

/-- Python's `notes += marker`: string concatenation, a `TypeError` if the
stored notes value is not a string. -/
def notesAppendMarker (n : JValue) : Except PyErr JValue :=
  match n with
  | .str s => .ok (.str (s ++ llmFailMarker))
  | _ => .error (.typeError "can only concatenate str")

/-- The dict comprehension `{r["reference"]: r for r in llm_results}`:
subscripting a non-dict raises `TypeError`, a dict without the key raises
`KeyError`, an unhashable key value raises `TypeError` - none of these are
caught by the `except (json.JSONDecodeError, IndexError)` clause of the
source. -/
def buildLlmMap : List JValue → Except PyErr (List (JValue × JValue))
  | [] => .ok []
  | v :: rest =>
    match v with
    | .obj fs =>
      match objGet fs "reference" with
      | some k =>
        if hashableKey k then
          match buildLlmMap rest with
          | .ok m => .ok ((k, v) :: m)
          | .error e => .error e
        else .error (.typeError "unhashable type")
      | none => .error (.keyError "reference")
    | _ => .error (.typeError "not subscriptable")

/-- The per-record merge of an LLM verdict: a record whose reference string is
a key of `llm_map` gets `verified` and `notes` overwritten from the verdict
(with Python `.get` defaults), any other record is untouched. -/
def mergeRef (m : List (JValue × JValue)) (ref : RefRecord) : RefRecord :=
  match mapLookup m ref.reference with
  | some v =>
    { ref with verified := dictGet v "verified" (.bool false),
               notes := dictGet v "notes" ref.notes }
  | none => ref

/-- The `except` branch of `verify_references_with_llm`: append the
parse-failure marker to every record's notes, raising on the first record
whose notes value is not a string. -/
def appendMarkerAll : List RefRecord → Except PyErr (List RefRecord)
  | [] => .ok []
  | r :: rs =>
    match notesAppendMarker r.notes with
    | .error e => .error e
    | .ok n =>
      match appendMarkerAll rs with
      | .error e => .error e
      | .ok out => .ok ({ r with notes := n } :: out)

/-- The body of `verify_references_with_llm` past the LLM call, applied to the
response `content`. -/
def verifyRefsCore (content : String) (references : List RefRecord) :
    Except PyErr (List RefRecord) :=
  match parse_json_from_text content with
  | .error _ => appendMarkerAll references
  | .ok (.arr vs) =>
    match buildLlmMap vs with
    | .ok m => .ok (references.map (mergeRef m))
    | .error e => .error e
  | .ok _ => .ok references

/-- Embedding of `bibliography.verify_references_with_llm`: short-circuits
when no record has search URLs, otherwise consults the LLM once over a prompt
built from every record and merges the verdicts back. Uncaught Python
exceptions of the source surface as `Except.error`. -/
def verify_references_with_llm (llm : String → String)
    (references : List RefRecord) : Except PyErr (List RefRecord) :=
  if (references.filter fun r => !r.search_urls.isEmpty).isEmpty then
    .ok references
  else
    verifyRefsCore (llm (verifyPrompt references)) references

/-! ## Bibliography pipeline -/

/-- The strictly sequential search step of `verify_bibliography`: one
`search_single_reference` call per extracted reference, in order. The second
component is the trace of issued search calls. -/
def searchAll (so : String → SearchOutcome) : List String → List RefRecord × List String
  | [] => ([], [])
  | r :: rs =>
    let rec1 := (search_single_reference (so r) r).1
    let (recs, trace) := searchAll so rs
    (rec1 :: recs, r :: trace)

/-- Embedding of `bibliography.verify_bibliography`: extract, short-circuit on
zero references, search each reference sequentially, verify. The second
component is the trace of issued search calls. -/
def verify_bibliography (llm : String → String) (so : String → SearchOutcome)
    (essay_text : String) : Except PyErr (List RefRecord) × List String :=
  let ref_strings := extract_references_with_llm llm essay_text
  if ref_strings.isEmpty then (.ok [], [])
  else
    let (search_results, trace) := searchAll so ref_strings
    (verify_references_with_llm llm search_results, trace)

/-! ## Grading agent response handling -/

/-- The final agent message content: either a plain string or a list of parts
(Gemini may split output into string parts and `{type, text}` dicts). -/
inductive MsgContent where
  | str (s : String)
  | parts (ps : List JValue)

/-- Textual contribution of one message part:
`part if isinstance(part, str) else part.get("text", "")`. The model covers
parts whose `text` field, when present, is textual - the provider's format. -/
def partText (p : JValue) : String :=
  match p with
  | .str s => s
  | .obj fs =>
    match objGet fs "text" with
    | some (.str s) => s
    | _ => ""
  | _ => ""

/-- Flattening of the final message content to a single string:
`"\n".join(...)` over the parts. -/
def flattenContent : MsgContent → String
  | .str s => s
  | .parts ps => String.intercalate "\n" (ps.map partText)

/-- Embedding of the response handling at the end of `agent.grade_essay`:
flatten the final message, select the candidate substring (the text is not
pre-stripped here, unlike `_parse_json_from_text`), strip and JSON-parse it;
on any parse failure return the raw-text envelope
`{"raw_response": <text>, "parse_error": True}`. -/
def grade_essay_result (final : MsgContent) : JValue :=
  let flat := flattenContent final
  match jsonLoads (pyStrip (extractCandidate flat.data)) with
  | .ok v => v
  | .error _ => .obj [("raw_response", .str flat), ("parse_error", .bool true)]

/-! ## Specification-side candidate selection (for the refinement claim about
the structured-response parser) -/

/-- Candidate-substring selection exactly as the claim words it: "if the text
contains a fence opened with a json tag, the substring between the first such
opening and the next three-backtick fence after it; else if the text contains
any fence, the substring between the first pair of fences; else the whole
text". Defined from first-occurrence indices, independently of Python `split`
semantics. -/
def specSelectClaim (t : List Char) : List Char :=
  if isSubstr jsonFenceTok t then
    beforeFirst fenceTok (afterFirst jsonFenceTok t)
  else if isSubstr fenceTok t then
    beforeFirst fenceTok (afterFirst fenceTok t)
  else t

/-- Candidate-substring selection as amended: in the json-tag branch the
candidate is the substring after the first json-tagged opening, truncated at
the next non-overlapping json-tagged opening (if any), and then truncated at
the first complete plain fence within it - which is what left-to-right
`split`-based scanning produces. The other two branches are as the claim
words them. -/
def specSelectAmended (t : List Char) : List Char :=
  if isSubstr jsonFenceTok t then
    beforeFirst fenceTok (beforeFirst jsonFenceTok (afterFirst jsonFenceTok t))
  else if isSubstr fenceTok t then
    beforeFirst fenceTok (afterFirst fenceTok t)
  else t

/-! ## Specification-side helper notions for the verifier claims -/

/-- The fields of a record the verifier must never modify: its reference
string and its search URLs. -/
def frameOf (r : RefRecord) : String × List String :=
  (r.reference, r.search_urls)

/-- The notes value after the parse-failure marker is appended (identity on
non-string notes, which in the source would instead raise `TypeError`). -/
def jvalAppendStr : JValue → JValue
  | .str s => .str (s ++ llmFailMarker)
  | v => v

/-- The `reference` value of a parsed verdict element, if it is an object
that has one. -/
def verdictKey : JValue → Option JValue
  | .obj fs => objGet fs "reference"
  | _ => none

/-- A verdict element the dict comprehension of the source accepts without
raising: an object with a hashable `reference` value. -/
def HasHashableRef (v : JValue) : Prop :=
  ∃ fs k, v = .obj fs ∧ objGet fs "reference" = some k ∧ hashableKey k = true

/-- Verifier responses on which `verify_references_with_llm` cannot raise:
responses that fail to parse, parse to a non-array, or parse to an array all
of whose elements have a hashable `reference` value. -/
def SafeVerifierResponse (content : String) : Prop :=
  (∃ e, parse_json_from_text content = .error e) ∨
  (∃ v, parse_json_from_text content = .ok v ∧ ∀ es, v ≠ .arr es) ∨
  (∃ es, parse_json_from_text content = .ok (.arr es) ∧ ∀ v ∈ es, HasHashableRef v)

/-! ## Concrete fixtures used by witnesses and counterexamples -/

/-- A searched record with one result URL (as `search_single_reference`
builds it on success). -/
def recU : RefRecord :=
  { reference := "a", verified := .bool false, search_urls := ["u"],
    notes := .str "n" }

/-- A searched record with no result URLs. -/
def recNoU : RefRecord :=
  { reference := "b", verified := .bool false, search_urls := [],
    notes := .str "m" }

/-- A well-formed verdict object for the reference `"a"`. -/
def sampleVerdict : JValue :=
  .obj [("reference", .str "a"), ("verified", .bool true),
        ("notes", .str "confirmed")]

/-- A verifier response carrying exactly `sampleVerdict`. -/
def sampleVerdictResponse : String :=
  "[\x7b\"reference\": \"a\", \"verified\": true, \"notes\": \"confirmed\"\x7d]"

end GradingAgent

namespace GradingAgent

/-! ## Properties of the textual primitives -/

theorem firstOcc_nil {pat : List Char} (h : pat ≠ []) : firstOcc pat [] = none := by
  cases pat with
  | nil => exact absurd rfl h
  | cons c cs => simp [firstOcc, List.isPrefixOf]

theorem firstOcc_isPrefixOf {pat s : List Char} {i : Nat}
    (h : firstOcc pat s = some i) : pat.isPrefixOf (s.drop i) = true := by
  induction s generalizing i with
  | nil =>
    unfold firstOcc at h
    split at h
    · rename_i hp
      cases h
      simpa using hp
    · exact absurd h (by simp)
  | cons c rest ih =>
    unfold firstOcc at h
    split at h
    · rename_i hp
      cases h
      simpa using hp
    · cases hfo : firstOcc pat rest with
      | none => rw [hfo] at h; simp at h
      | some j =>
        rw [hfo] at h
        simp only [Option.map_some'] at h
        cases h
        simpa using ih hfo

theorem firstOcc_min {pat s : List Char} {i : Nat}
    (h : firstOcc pat s = some i) :
    ∀ j, j < i → pat.isPrefixOf (s.drop j) = false := by
  induction s generalizing i with
  | nil =>
    unfold firstOcc at h
    split at h
    · cases h
      intro j hj
      omega
    · exact absurd h (by simp)
  | cons c rest ih =>
    unfold firstOcc at h
    split at h
    · cases h
      intro j hj
      omega
    · rename_i hp
      cases hfo : firstOcc pat rest with
      | none => rw [hfo] at h; simp at h
      | some k =>
        rw [hfo] at h
        simp only [Option.map_some'] at h
        cases h
        intro j hj
        cases j with
        | zero =>
          simp only [List.drop_zero]
          exact Bool.eq_false_iff.mpr hp
        | succ j' =>
          simp only [List.drop_succ_cons]
          exact ih hfo j' (by omega)

end GradingAgent

namespace GradingAgent

theorem firstOcc_lt_length {pat s : List Char} {i : Nat} (hpat : pat ≠ [])
    (h : firstOcc pat s = some i) : i < s.length := by
  induction s generalizing i with
  | nil => rw [firstOcc_nil hpat] at h; exact absurd h (by simp)
  | cons c rest ih =>
    unfold firstOcc at h
    split at h
    · cases h
      simp
    · cases hfo : firstOcc pat rest with
      | none => rw [hfo] at h; simp at h
      | some k =>
        rw [hfo] at h
        simp only [Option.map_some'] at h
        cases h
        have := ih hfo
        simp only [List.length_cons]
        omega

theorem firstOcc_take_none {pat s : List Char} {i : Nat} (hpat : pat ≠ [])
    (h : firstOcc pat s = some i) : firstOcc pat (s.take i) = none := by
  cases hfo : firstOcc pat (s.take i) with
  | none => rfl
  | some j =>
    exfalso
    have hpre := firstOcc_isPrefixOf hfo
    have hj : j < (s.take i).length := firstOcc_lt_length hpat hfo
    have hj2 : j < i := by
      have := List.length_take i s
      omega
    have h1 : pat <+: (s.take i).drop j := List.isPrefixOf_iff_prefix.mp hpre
    rw [List.drop_take] at h1
    have h2 : pat <+: s.drop j := h1.trans (List.take_prefix _ _)
    have h3 := List.isPrefixOf_iff_prefix.mpr h2
    rw [firstOcc_min h j hj2] at h3
    exact absurd h3 (by simp)

theorem isSubstr_of_isPrefixOf_drop {pat s : List Char} {i : Nat}
    (h : pat.isPrefixOf (s.drop i) = true) : isSubstr pat s = true := by
  induction s generalizing i with
  | nil =>
    simp only [List.drop_nil] at h
    cases pat with
    | nil => simp [isSubstr, firstOcc, List.isPrefixOf]
    | cons c cs => simp [List.isPrefixOf] at h
  | cons c rest ih =>
    unfold isSubstr firstOcc
    split
    · simp
    · rename_i hp
      cases i with
      | zero =>
        simp only [List.drop_zero] at h
        exact absurd h hp
      | succ i' =>
        simp only [List.drop_succ_cons] at h
        have := ih h
        unfold isSubstr at this
        simpa using this

theorem isSubstr_exists_occ {pat s : List Char} (h : isSubstr pat s = true) :
    ∃ i, pat.isPrefixOf (s.drop i) = true := by
  unfold isSubstr at h
  cases hfo : firstOcc pat s with
  | none => rw [hfo] at h; simp at h
  | some i => exact ⟨i, firstOcc_isPrefixOf hfo⟩

theorem isSubstr_mono {pat1 pat2 s : List Char} (hsub : pat1 <+: pat2)
    (h : isSubstr pat2 s = true) : isSubstr pat1 s = true := by
  obtain ⟨i, hi⟩ := isSubstr_exists_occ h
  have h2 : pat2 <+: s.drop i := List.isPrefixOf_iff_prefix.mp hi
  exact isSubstr_of_isPrefixOf_drop (List.isPrefixOf_iff_prefix.mpr (hsub.trans h2))

theorem pySplitFuel_getD_zero {pat s : List Char} {fuel : Nat} (h : 1 ≤ fuel) :
    (pySplitFuel pat fuel s).getD 0 [] = beforeFirst pat s := by
  cases fuel with
  | zero => omega
  | succ f =>
    unfold pySplitFuel beforeFirst
    cases hfo : firstOcc pat s <;> simp

theorem pySplit_getD_zero (pat s : List Char) :
    (pySplit pat s).getD 0 [] = beforeFirst pat s :=
  pySplitFuel_getD_zero (by omega)

theorem beforeFirst_eq_of_none {pat s : List Char} (h : firstOcc pat s = none) :
    beforeFirst pat s = s := by
  unfold beforeFirst
  rw [h]

theorem beforeFirst_eq_of_some {pat s : List Char} {i : Nat}
    (h : firstOcc pat s = some i) : beforeFirst pat s = s.take i := by
  unfold beforeFirst
  rw [h]

theorem afterFirst_eq_of_some {pat s : List Char} {i : Nat}
    (h : firstOcc pat s = some i) : afterFirst pat s = s.drop (i + pat.length) := by
  unfold afterFirst
  rw [h]

theorem pySplit_getD_one {pat s : List Char} {i : Nat} (hpat : pat ≠ [])
    (h : firstOcc pat s = some i) :
    (pySplit pat s).getD 1 [] = beforeFirst pat (s.drop (i + pat.length)) := by
  have hlen : 1 ≤ s.length := by
    cases s with
    | nil => rw [firstOcc_nil hpat] at h; exact absurd h (by simp)
    | cons c rest => simp
  unfold pySplit
  have hunf : pySplitFuel pat (s.length + 1) s =
      s.take i :: pySplitFuel pat s.length (s.drop (i + pat.length)) := by
    rw [pySplitFuel, h]
  rw [hunf]
  simpa using @pySplitFuel_getD_zero pat (s.drop (i + pat.length)) s.length hlen

theorem beforeFirst_idem {pat s : List Char} (hpat : pat ≠ []) :
    beforeFirst pat (beforeFirst pat s) = beforeFirst pat s := by
  cases hfo : firstOcc pat s with
  | none =>
    rw [beforeFirst_eq_of_none hfo]
    exact beforeFirst_eq_of_none hfo
  | some i =>
    rw [beforeFirst_eq_of_some hfo]
    exact beforeFirst_eq_of_none (firstOcc_take_none hpat hfo)

theorem jsonFenceTok_ne_nil : jsonFenceTok ≠ [] := by
  simp [jsonFenceTok]

theorem fenceTok_ne_nil : fenceTok ≠ [] := by
  simp [fenceTok]

/-- The `split`-based candidate selection of the source equals the
index-based amended description. -/
theorem extractCandidate_eq_amended (t : List Char) :
    extractCandidate t = specSelectAmended t := by
  unfold extractCandidate specSelectAmended
  by_cases hj : isSubstr jsonFenceTok t = true
  · simp only [hj, if_true]
    cases hfo : firstOcc jsonFenceTok t with
    | none => unfold isSubstr at hj; rw [hfo] at hj; simp at hj
    | some i =>
      rw [pySplit_getD_one jsonFenceTok_ne_nil hfo, pySplit_getD_zero,
        afterFirst_eq_of_some hfo]
  · simp only [Bool.not_eq_true] at hj
    simp only [hj, Bool.false_eq_true, if_false]
    by_cases hf : isSubstr fenceTok t = true
    · simp only [hf, if_true]
      cases hfo : firstOcc fenceTok t with
      | none => unfold isSubstr at hf; rw [hfo] at hf; simp at hf
      | some i =>
        rw [pySplit_getD_one fenceTok_ne_nil hfo, pySplit_getD_zero,
          beforeFirst_idem fenceTok_ne_nil, afterFirst_eq_of_some hfo]
    · simp only [Bool.not_eq_true] at hf
      simp [hf]

end GradingAgent

namespace GradingAgent

/-! ## Claim C1: behaviour of the single-reference searcher -/

/-- C1: for every reference string and every behaviour of the underlying
web-search call, `search_single_reference` returns a record and never
propagates an exception (the embedding is a total function over all three
outcome shapes); on timeout the record has empty `search_urls` and a note
containing a timed-out indication; on any other search failure it has empty
`search_urls` and the note `"Search failed: <cause>"`; on success with zero
results the note states the reference may not exist; on success with one or
more results the note states the count found. -/
theorem claim1_searcher_cases (ref e u : String) (us : List String) :
    ((search_single_reference .timeout ref).1 =
      { reference := ref, verified := .bool false, search_urls := [],
        notes := .str "Search timed out." } ∧
     isSubstr "timed out".data "Search timed out.".data = true) ∧
    (search_single_reference (.failure e) ref).1 =
      { reference := ref, verified := .bool false, search_urls := [],
        notes := .str ("Search failed: " ++ e) } ∧
    ((search_single_reference (.success []) ref).1 =
      { reference := ref, verified := .bool false, search_urls := [],
        notes := .str "No search results found. Reference may not exist." } ∧
     isSubstr "may not exist".data
       "No search results found. Reference may not exist.".data = true) ∧
    (search_single_reference (.success (u :: us)) ref).1 =
      { reference := ref, verified := .bool false, search_urls := u :: us,
        notes := .str ("Found " ++ toString (u :: us).length ++ " search results.") } :=
  ⟨⟨rfl, by decide⟩, rfl, ⟨rfl, by decide⟩, rfl⟩

/-! ## Claim C2: the rate-limit sleep -/

/-- C2 counterexample: the claim states the 0.5-unit sleep is performed after
every search call, including timeouts and failures; but on a timeout (and on
an exception) both `search_single_reference` and `search_reference` return
before the `time.sleep(0.5)` statement is reached, so no sleep happens. -/
theorem claim2_cx :
    (search_single_reference .timeout "Ref").2 = false ∧
    (search_reference .timeout "Ref").2 = false ∧
    (search_single_reference (.failure "connection reset") "Ref").2 = false ∧
    (search_reference (.failure "connection reset") "Ref").2 = false :=
  ⟨rfl, rfl, rfl, rfl⟩

/-- C2 amended: the 0.5-unit sleep is performed exactly when the underlying
search call completes normally (with or without results); on timeout and on
exception both `search_single_reference` and the agent-tool variant
`search_reference` return without sleeping. -/
theorem claim2_sleep_iff_normal_return (ref e : String) (urls : List String) :
    (search_single_reference (.success urls) ref).2 = true ∧
    (search_single_reference .timeout ref).2 = false ∧
    (search_single_reference (.failure e) ref).2 = false ∧
    (search_reference (.success urls) ref).2 = true ∧
    (search_reference .timeout ref).2 = false ∧
    (search_reference (.failure e) ref).2 = false := by
  refine ⟨?_, rfl, rfl, ?_, rfl, rfl⟩ <;> cases urls <;> rfl

/-! ## Claim C3: the structured-response parser's candidate selection -/

/-- C3 counterexample: on the input text `"```json1`````json"` the claim's
selection rule ("the substring between the first json-tagged opening and the
next plain fence after it") yields the candidate `"1"`, which parses to the
JSON value `1`; but the source's `split`-based selection yields `"1``"`,
which fails to parse - the two algorithms disagree on this input. -/
theorem claim3_cx :
    parse_json_from_text "```json1`````json" = .error "Extra data" ∧
    jsonLoads (pyStrip (specSelectClaim (pyStrip "```json1`````json".data))) =
      .ok (.num 1) ∧
    (Except.error "Extra data" : Except String JValue) ≠ .ok (.num 1) :=
  ⟨rfl, rfl, fun h => nomatch h⟩

/-- C3 amended: for every input text, `_parse_json_from_text` strips the
text, selects the candidate substring as described by `specSelectAmended`
(json-tag branch truncated at the next non-overlapping json-tagged opening
before looking for the closing fence; the other branches exactly as the claim
words them), strips the candidate and JSON-parses it; every parse problem is
reported as a failure value distinct from success, never raised. -/
theorem claim3_amended_selection (text : String) :
    parse_json_from_text text =
      jsonLoads (pyStrip (specSelectAmended (pyStrip text.data))) := by
  show jsonLoads (pyStrip (extractCandidate (pyStrip text.data))) =
    jsonLoads (pyStrip (specSelectAmended (pyStrip text.data)))
  rw [extractCandidate_eq_amended]

end GradingAgent

namespace GradingAgent

/-! ## Claim C4: raw-text fallback of the grading agent -/

theorem fenceTok_prefix_jsonFenceTok : fenceTok <+: jsonFenceTok :=
  List.isPrefixOf_iff_prefix.mp (by decide)

/-- C4: for every final agent message, if the flattened message text contains
no code fence and is not valid JSON, `grade_essay` returns the dict
`{"raw_response": <the flattened original text>, "parse_error": True}`
instead of raising. -/
theorem claim4_grade_essay_raw_fallback (final : MsgContent) (m : String)
    (hnof : isSubstr fenceTok (flattenContent final).data = false)
    (herr : jsonLoads (pyStrip (flattenContent final).data) = .error m) :
    grade_essay_result final =
      .obj [("raw_response", .str (flattenContent final)),
            ("parse_error", .bool true)] := by
  have hnoj : isSubstr jsonFenceTok (flattenContent final).data = false := by
    cases hc : isSubstr jsonFenceTok (flattenContent final).data with
    | false => rfl
    | true =>
      have := isSubstr_mono fenceTok_prefix_jsonFenceTok hc
      rw [hnof] at this
      exact absurd this (by simp)
  show (match jsonLoads (pyStrip (extractCandidate (flattenContent final).data)) with
        | .ok v => v
        | .error _ =>
          JValue.obj [("raw_response", .str (flattenContent final)),
                      ("parse_error", .bool true)]) = _
  unfold extractCandidate
  rw [hnoj, hnof]
  simp only [Bool.false_eq_true, if_false]
  rw [herr]

/-- C4 witness: a concrete two-part final message with non-JSON text and no
fence hits the raw-text envelope. -/
theorem claim4_witness :
    isSubstr fenceTok (flattenContent (.parts [.str "hello", .str "world"])).data = false ∧
    jsonLoads (pyStrip (flattenContent (.parts [.str "hello", .str "world"])).data) =
      .error "Expecting value" ∧
    flattenContent (.parts [.str "hello", .str "world"]) = "hello\nworld" ∧
    grade_essay_result (.parts [.str "hello", .str "world"]) =
      .obj [("raw_response", .str (flattenContent (.parts [.str "hello", .str "world"]))),
            ("parse_error", .bool true)] :=
  ⟨rfl, rfl, rfl,
    claim4_grade_essay_raw_fallback (.parts [.str "hello", .str "world"])
      "Expecting value" rfl rfl⟩

end GradingAgent

namespace GradingAgent

/-! ## Properties of the verdict map and the merge step -/

theorem keyEqStr_iff {k : JValue} {key : String} :
    keyEqStr k key = true ↔ k = .str key := by
  cases k <;> simp [keyEqStr]

theorem mergeRef_eq_of_some {m : List (JValue × JValue)} {r : RefRecord} {v : JValue}
    (h : mapLookup m r.reference = some v) :
    mergeRef m r =
      { r with verified := dictGet v "verified" (.bool false),
               notes := dictGet v "notes" r.notes } := by
  unfold mergeRef
  rw [h]

theorem mergeRef_eq_of_none {m : List (JValue × JValue)} {r : RefRecord}
    (h : mapLookup m r.reference = none) : mergeRef m r = r := by
  unfold mergeRef
  rw [h]

theorem mergeRef_reference (m : List (JValue × JValue)) (r : RefRecord) :
    (mergeRef m r).reference = r.reference := by
  cases h : mapLookup m r.reference with
  | none => rw [mergeRef_eq_of_none h]
  | some v => rw [mergeRef_eq_of_some h]

theorem mergeRef_search_urls (m : List (JValue × JValue)) (r : RefRecord) :
    (mergeRef m r).search_urls = r.search_urls := by
  cases h : mapLookup m r.reference with
  | none => rw [mergeRef_eq_of_none h]
  | some v => rw [mergeRef_eq_of_some h]

theorem mergeRef_frameOf (m : List (JValue × JValue)) (r : RefRecord) :
    frameOf (mergeRef m r) = frameOf r := by
  unfold frameOf
  rw [mergeRef_reference, mergeRef_search_urls]

theorem dictGet_self (v : JValue) (key : String) (d : JValue) :
    dictGet v key (dictGet v key d) = dictGet v key d := by
  cases v with
  | obj fs => cases h : objGet fs key <;> simp [dictGet, h]
  | null => rfl
  | bool b => rfl
  | num n => rfl
  | str s => rfl
  | arr xs => rfl

theorem mergeRef_idem (m : List (JValue × JValue)) (r : RefRecord) :
    mergeRef m (mergeRef m r) = mergeRef m r := by
  cases h : mapLookup m r.reference with
  | none => rw [mergeRef_eq_of_none h, mergeRef_eq_of_none h]
  | some v =>
    rw [mergeRef_eq_of_some h]
    have h2 : mapLookup m ({ r with
        verified := dictGet v "verified" (.bool false),
        notes := dictGet v "notes" r.notes } : RefRecord).reference = some v := h
    rw [mergeRef_eq_of_some h2]
    simp [dictGet_self]

theorem buildLlmMap_ok_of_hashable {vs : List JValue}
    (h : ∀ v ∈ vs, HasHashableRef v) : ∃ m, buildLlmMap vs = .ok m := by
  induction vs with
  | nil => exact ⟨[], rfl⟩
  | cons v rest ih =>
    obtain ⟨fs, k, hv, hk, hh⟩ := h v (by simp)
    obtain ⟨m', hm'⟩ := ih fun v' hv' => h v' (by simp [hv'])
    subst hv
    refine ⟨(k, .obj fs) :: m', ?_⟩
    simp [buildLlmMap, hk, hh, hm']

theorem mapLookup_none_iff {vs : List JValue} {m : List (JValue × JValue)}
    {key : String} (h : buildLlmMap vs = .ok m) :
    mapLookup m key = none ↔ ∀ v ∈ vs, verdictKey v ≠ some (.str key) := by
  induction vs generalizing m with
  | nil =>
    unfold buildLlmMap at h
    injection h with h
    subst h
    simp [mapLookup]
  | cons v rest ih =>
    cases v with
    | null => simp [buildLlmMap] at h
    | bool b => simp [buildLlmMap] at h
    | num n => simp [buildLlmMap] at h
    | str s => simp [buildLlmMap] at h
    | arr xs => simp [buildLlmMap] at h
    | obj fs =>
      simp only [buildLlmMap] at h
      cases hk : objGet fs "reference" with
      | none => simp [hk] at h
      | some k =>
        simp only [hk] at h
        by_cases hh : hashableKey k = true
        · rw [if_pos hh] at h
          cases hrest : buildLlmMap rest with
          | error e => simp [hrest] at h
          | ok m' =>
            simp only [hrest] at h
            injection h with h
            subst h
            have hihm := ih hrest
            constructor
            · intro hnone
              unfold mapLookup at hnone
              cases hml : mapLookup m' key with
              | some r => rw [hml] at hnone; simp at hnone
              | none =>
                rw [hml] at hnone
                by_cases hke : keyEqStr k key = true
                · rw [if_pos hke] at hnone; simp at hnone
                · intro v' hv'
                  rcases List.mem_cons.mp hv' with hveq | hmem
                  · subst hveq
                    simp only [verdictKey, hk]
                    intro hcontra
                    injection hcontra with hcontra
                    exact hke (keyEqStr_iff.mpr hcontra)
                  · exact hihm.mp hml v' hmem
            · intro hall
              have h1 : verdictKey (.obj fs) ≠ some (.str key) := hall _ (by simp)
              have hkne : keyEqStr k key = false := by
                cases hke : keyEqStr k key with
                | false => rfl
                | true =>
                  exfalso
                  apply h1
                  simp only [verdictKey, hk]
                  rw [keyEqStr_iff.mp hke]
              have h2 : mapLookup m' key = none :=
                hihm.mpr fun v' hv' => hall v' (by simp [hv'])
              unfold mapLookup
              rw [h2, hkne]
              simp
        · rw [if_neg hh] at h; simp at h

theorem mapLookup_some_mem {vs : List JValue} {m : List (JValue × JValue)}
    {key : String} {v : JValue} (h : buildLlmMap vs = .ok m)
    (hl : mapLookup m key = some v) :
    v ∈ vs ∧ verdictKey v = some (.str key) := by
  induction vs generalizing m with
  | nil =>
    unfold buildLlmMap at h
    injection h with h
    subst h
    simp [mapLookup] at hl
  | cons w rest ih =>
    cases w with
    | null => simp [buildLlmMap] at h
    | bool b => simp [buildLlmMap] at h
    | num n => simp [buildLlmMap] at h
    | str s => simp [buildLlmMap] at h
    | arr xs => simp [buildLlmMap] at h
    | obj fs =>
      simp only [buildLlmMap] at h
      cases hk : objGet fs "reference" with
      | none => simp [hk] at h
      | some k =>
        simp only [hk] at h
        by_cases hh : hashableKey k = true
        · rw [if_pos hh] at h
          cases hrest : buildLlmMap rest with
          | error e => simp [hrest] at h
          | ok m' =>
            simp only [hrest] at h
            injection h with h
            subst h
            unfold mapLookup at hl
            cases hml : mapLookup m' key with
            | some r =>
              rw [hml] at hl
              injection hl with hl
              subst hl
              have := ih hrest hml
              exact ⟨List.mem_cons_of_mem _ this.1, this.2⟩
            | none =>
              rw [hml] at hl
              by_cases hke : keyEqStr k key = true
              · rw [if_pos hke] at hl
                injection hl with hl
                subst hl
                refine ⟨by simp, ?_⟩
                simp only [verdictKey, hk]
                rw [keyEqStr_iff.mp hke]
              · rw [if_neg hke] at hl; simp at hl
        · rw [if_neg hh] at h; simp at h

end GradingAgent

namespace GradingAgent

/-! ## Frame properties of the verifier -/

theorem appendMarkerAll_frame : ∀ {rs out : List RefRecord},
    appendMarkerAll rs = .ok out → out.map frameOf = rs.map frameOf := by
  intro rs
  induction rs with
  | nil =>
    intro out h
    injection h with h
    subst h
    rfl
  | cons r rest ih =>
    intro out h
    unfold appendMarkerAll at h
    cases hn : notesAppendMarker r.notes with
    | error e => rw [hn] at h; simp at h
    | ok n =>
      rw [hn] at h
      cases hrest : appendMarkerAll rest with
      | error e => rw [hrest] at h; simp at h
      | ok os =>
        rw [hrest] at h
        injection h with h
        subst h
        simp [frameOf, ih hrest]

theorem appendMarkerAll_ok_of_str {rs : List RefRecord}
    (h : ∀ r ∈ rs, ∃ s, r.notes = .str s) :
    appendMarkerAll rs =
      .ok (rs.map fun r => { r with notes := jvalAppendStr r.notes }) := by
  induction rs with
  | nil => rfl
  | cons r rest ih =>
    obtain ⟨s, hs⟩ := h r (by simp)
    have hmk : notesAppendMarker r.notes = .ok (.str (s ++ llmFailMarker)) := by
      rw [hs]
      rfl
    unfold appendMarkerAll
    rw [hmk, ih fun r' hr' => h r' (by simp [hr'])]
    simp [jvalAppendStr, hs]

theorem filter_urls_isEmpty_eq : ∀ {rs os : List RefRecord},
    os.map frameOf = rs.map frameOf →
    (os.filter fun r => !r.search_urls.isEmpty).isEmpty =
      (rs.filter fun r => !r.search_urls.isEmpty).isEmpty := by
  intro rs
  induction rs with
  | nil =>
    intro os h
    simp only [List.map_nil, List.map_eq_nil_iff] at h
    subst h
    rfl
  | cons r rest ih =>
    intro os h
    cases os with
    | nil => simp at h
    | cons o os' =>
      simp only [List.map_cons, List.cons.injEq] at h
      obtain ⟨h1, h2⟩ := h
      have hurls : o.search_urls = r.search_urls := congrArg Prod.snd h1
      simp only [List.filter_cons, hurls]
      cases hcond : !r.search_urls.isEmpty with
      | true => simp
      | false => simp [ih h2]

theorem verify_frame {llm : String → String} {records out : List RefRecord}
    (h : verify_references_with_llm llm records = .ok out) :
    out.map frameOf = records.map frameOf := by
  unfold verify_references_with_llm at h
  split at h
  · injection h with h
    subst h
    rfl
  · unfold verifyRefsCore at h
    split at h
    · exact appendMarkerAll_frame h
    · rename_i vs heq
      cases hm : buildLlmMap vs with
      | error e => rw [hm] at h; simp at h
      | ok m =>
        rw [hm] at h
        injection h with h
        subst h
        rw [List.map_map]
        exact List.map_congr_left fun r _ => mergeRef_frameOf m r
    · injection h with h
      subst h
      rfl

end GradingAgent

namespace GradingAgent

/-! ## Claim C10: frame condition of the verifier -/

/-- C10 counterexample: the claim says that for every input record list and
every model response `verify_references_with_llm` returns a list; but on the
response `"[1]"` (a JSON array whose element is not an object) the dict
comprehension subscripts an `int` and the resulting `TypeError` propagates -
the function raises instead of returning a list. -/
theorem claim10_cx :
    verify_references_with_llm (fun _ => "[1]")
      [{ reference := "a", verified := .bool false, search_urls := ["u"],
         notes := .str "n" }] =
      .error (.typeError "not subscriptable") := rfl

/-- C10 amended: whenever `verify_references_with_llm` returns a list (it can
instead raise on array elements without a `reference` key), the list has the
same length and order as the input and every record's `reference` and
`search_urls` fields are unchanged; only `verified` and `notes` are ever
modified. -/
theorem claim10_frame (llm : String → String) (records out : List RefRecord)
    (h : verify_references_with_llm llm records = .ok out) :
    out.length = records.length ∧ out.map frameOf = records.map frameOf := by
  have hf := verify_frame h
  refine ⟨?_, hf⟩
  have := congrArg List.length hf
  simpa using this

/-- C10 witness: a concrete parse-failure run keeps the frame. -/
theorem claim10_witness :
    verify_references_with_llm (fun _ => "not json")
      [{ reference := "a", verified := .bool false, search_urls := ["u"],
         notes := .str "n" }] =
      .ok [{ reference := "a", verified := .bool false, search_urls := ["u"],
             notes := .str ("n" ++ llmFailMarker) }] ∧
    ([{ reference := "a", verified := .bool false, search_urls := ["u"],
        notes := .str ("n" ++ llmFailMarker) }] : List RefRecord).length =
      ([{ reference := "a", verified := .bool false, search_urls := ["u"],
          notes := .str "n" }] : List RefRecord).length ∧
    ([{ reference := "a", verified := .bool false, search_urls := ["u"],
        notes := .str ("n" ++ llmFailMarker) }] : List RefRecord).map frameOf =
      ([{ reference := "a", verified := .bool false, search_urls := ["u"],
          notes := .str "n" }] : List RefRecord).map frameOf := by
  refine ⟨rfl, ?_⟩
  exact claim10_frame (fun _ => "not json") _ _ rfl

/-! ## Claim C7: no stage raises on malformed model output -/

/-- C7 counterexample: the claim says extraction and verification return
without raising for every possible model response, including arrays whose
elements lack a `reference` key; but on the response `"[{}]"` the dict
comprehension `{r["reference"]: r ...}` raises `KeyError`, which the
`except (json.JSONDecodeError, IndexError)` clause does not catch. -/
theorem claim7_cx :
    verify_references_with_llm (fun _ => "[\x7b\x7d]")
      [{ reference := "a", verified := .bool false, search_urls := ["u"],
         notes := .str "n" }] =
      .error (.keyError "reference") := rfl

/-- C7 amended: `extract_references_with_llm` never raises (its embedding is
a total function into `List String`); `verify_references_with_llm` returns
without raising whenever its records' notes are strings and the response
either fails to parse, parses to a non-array, or parses to an array whose
elements are all objects with a hashable `reference` value - but an array
element that is not such an object makes it raise, as the counterexample
shows. -/
theorem claim7_no_raise_on_safe_responses (llm : String → String)
    (records : List RefRecord)
    (hnotes : ∀ r ∈ records, ∃ s, r.notes = .str s)
    (hsafe : SafeVerifierResponse (llm (verifyPrompt records))) :
    ∃ out, verify_references_with_llm llm records = .ok out := by
  unfold verify_references_with_llm
  cases hc : (records.filter fun r => !r.search_urls.isEmpty).isEmpty with
  | true =>
    refine ⟨records, ?_⟩
    simp [hc]
  | false =>
    simp only [hc, Bool.false_eq_true, if_false]
    unfold verifyRefsCore
    rcases hsafe with ⟨e, he⟩ | ⟨v, hv, hnarr⟩ | ⟨es, hes, hverd⟩
    · rw [he]
      exact ⟨_, appendMarkerAll_ok_of_str hnotes⟩
    · rw [hv]
      cases v with
      | arr es => exact absurd rfl (hnarr es)
      | null => exact ⟨records, rfl⟩
      | bool b => exact ⟨records, rfl⟩
      | num n => exact ⟨records, rfl⟩
      | str s => exact ⟨records, rfl⟩
      | obj fs => exact ⟨records, rfl⟩
    · simp only [hes]
      obtain ⟨m, hm⟩ := buildLlmMap_ok_of_hashable hverd
      simp only [hm]
      exact ⟨_, rfl⟩

/-- C7 witness: a parse-failure response is safe and the verifier returns. -/
theorem claim7_witness :
    (∀ r ∈ ([{ reference := "a", verified := .bool false, search_urls := ["u"],
               notes := .str "n" }] : List RefRecord), ∃ s, r.notes = .str s) ∧
    SafeVerifierResponse
      ((fun _ => "not json")
        (verifyPrompt [{ reference := "a", verified := .bool false,
                         search_urls := ["u"], notes := .str "n" }])) ∧
    ∃ out, verify_references_with_llm (fun _ => "not json")
      [{ reference := "a", verified := .bool false, search_urls := ["u"],
         notes := .str "n" }] = .ok out := by
  refine ⟨?_, ?_, ?_⟩
  · intro r hr
    rw [List.mem_singleton] at hr
    subst hr
    exact ⟨"n", rfl⟩
  · exact Or.inl ⟨"Expecting value", rfl⟩
  · exact claim7_no_raise_on_safe_responses (fun _ => "not json") _
      (by intro r hr; rw [List.mem_singleton] at hr; subst hr; exact ⟨"n", rfl⟩)
      (Or.inl ⟨"Expecting value", rfl⟩)

end GradingAgent

namespace GradingAgent

/-! ## Claim C6: marker on verification parse failure -/

/-- C6 counterexample: the claim says every response that fails to parse as
an array - including valid JSON that parses to a non-array - gets the
parse-failure marker appended to every record's notes; but on the response
`"{}"` (a JSON object) the `isinstance(..., list)` test simply fails, no
exception is thrown, and the records are returned entirely unchanged: the
output notes are `"n"`, not `"n (LLM verification failed to parse)"`. -/
theorem claim6_cx :
    verify_references_with_llm (fun _ => "\x7b\x7d")
      [{ reference := "a", verified := .bool false, search_urls := ["u"],
         notes := .str "n" }] =
      .ok [{ reference := "a", verified := .bool false, search_urls := ["u"],
             notes := .str "n" }] ∧
    (JValue.str "n" ≠ JValue.str ("n" ++ llmFailMarker)) := by
  refine ⟨rfl, fun h => ?_⟩
  injection h with h
  exact absurd h (by decide)

/-- C6 amended: when at least one record has search URLs and every record's
notes value is a string, a response that raises a JSON parse error makes
`verify_references_with_llm` append the parse-failure marker to every
record's notes (leaving `verified` and all other fields unchanged), while a
response that parses successfully to a non-array value leaves every record
entirely unchanged - no marker is appended in that case. -/
theorem claim6_marker_on_parse_error (llm : String → String)
    (records : List RefRecord)
    (hne : (records.filter fun r => !r.search_urls.isEmpty).isEmpty = false)
    (hnotes : ∀ r ∈ records, ∃ s, r.notes = .str s) :
    (∀ e, parse_json_from_text (llm (verifyPrompt records)) = .error e →
      verify_references_with_llm llm records =
        .ok (records.map fun r => { r with notes := jvalAppendStr r.notes })) ∧
    (∀ v, parse_json_from_text (llm (verifyPrompt records)) = .ok v →
      (∀ es, v ≠ .arr es) →
      verify_references_with_llm llm records = .ok records) := by
  constructor
  · intro e he
    unfold verify_references_with_llm
    simp only [hne, Bool.false_eq_true, if_false]
    unfold verifyRefsCore
    simp only [he]
    exact appendMarkerAll_ok_of_str hnotes
  · intro v hv hnarr
    unfold verify_references_with_llm
    simp only [hne, Bool.false_eq_true, if_false]
    unfold verifyRefsCore
    cases v with
    | arr es => exact absurd rfl (hnarr es)
    | null => simp only [hv]
    | bool b => simp only [hv]
    | num n => simp only [hv]
    | str s => simp only [hv]
    | obj fs => simp only [hv]

/-- C6 witness: a concrete unparseable response appends the marker once to
the single record's notes. -/
theorem claim6_witness :
    (([{ reference := "a", verified := .bool false, search_urls := ["u"],
         notes := .str "n" }] : List RefRecord).filter
        fun r => !r.search_urls.isEmpty).isEmpty = false ∧
    parse_json_from_text
      ((fun _ => "not json")
        (verifyPrompt [{ reference := "a", verified := .bool false,
                         search_urls := ["u"], notes := .str "n" }])) =
      .error "Expecting value" ∧
    verify_references_with_llm (fun _ => "not json")
      [{ reference := "a", verified := .bool false, search_urls := ["u"],
         notes := .str "n" }] =
      .ok (([{ reference := "a", verified := .bool false, search_urls := ["u"],
               notes := .str "n" }] : List RefRecord).map
             fun r => { r with notes := jvalAppendStr r.notes }) := by
  refine ⟨rfl, rfl, ?_⟩
  exact (claim6_marker_on_parse_error (fun _ => "not json")
    [{ reference := "a", verified := .bool false, search_urls := ["u"],
       notes := .str "n" }] rfl
    (by intro r hr; rw [List.mem_singleton] at hr; subst hr; exact ⟨"n", rfl⟩)).1
    "Expecting value" rfl

/-! ## Claim C5: merge of a subset of verdicts -/

/-- C5: when the verifier is actually consulted (some record has search URLs)
and its reply parses as an array of verdict objects with hashable reference
values, `verify_references_with_llm` returns a same-length list in which each
record whose reference string is an exact key of some verdict has `verified`
and `notes` overwritten from that verdict, and each record matching no
verdict is returned entirely unchanged (in particular its `verified = false`
default and its notes survive). -/
theorem claim5_merge_subset (llm : String → String) (records : List RefRecord)
    (vs : List JValue)
    (hne : (records.filter fun r => !r.search_urls.isEmpty).isEmpty = false)
    (hparse : parse_json_from_text (llm (verifyPrompt records)) = .ok (.arr vs))
    (hverd : ∀ v ∈ vs, HasHashableRef v) :
    ∃ out, verify_references_with_llm llm records = .ok out ∧
      out.length = records.length ∧
      ∀ i (hi : i < records.length) (ho : i < out.length),
        ((∃ v ∈ vs, verdictKey v = some (.str (records.get ⟨i, hi⟩).reference)) →
          ∃ v ∈ vs,
            verdictKey v = some (.str (records.get ⟨i, hi⟩).reference) ∧
            out.get ⟨i, ho⟩ =
              { records.get ⟨i, hi⟩ with
                  verified := dictGet v "verified" (.bool false),
                  notes := dictGet v "notes" (records.get ⟨i, hi⟩).notes }) ∧
        ((∀ v ∈ vs, verdictKey v ≠ some (.str (records.get ⟨i, hi⟩).reference)) →
          out.get ⟨i, ho⟩ = records.get ⟨i, hi⟩) := by
  obtain ⟨m, hm⟩ := buildLlmMap_ok_of_hashable hverd
  refine ⟨records.map (mergeRef m), ?_, by simp, ?_⟩
  · unfold verify_references_with_llm
    simp only [hne, Bool.false_eq_true, if_false]
    unfold verifyRefsCore
    simp only [hparse, hm]
  · intro i hi ho
    have hget : (records.map (mergeRef m)).get ⟨i, ho⟩ =
        mergeRef m (records.get ⟨i, hi⟩) := by
      simp [List.get_eq_getElem, List.getElem_map]
    constructor
    · intro hmatch
      cases hlk : mapLookup m (records.get ⟨i, hi⟩).reference with
      | none =>
        exfalso
        obtain ⟨v, hv, hkey⟩ := hmatch
        exact (mapLookup_none_iff hm).mp hlk v hv hkey
      | some v =>
        obtain ⟨hvmem, hvkey⟩ := mapLookup_some_mem hm hlk
        refine ⟨v, hvmem, hvkey, ?_⟩
        rw [hget, mergeRef_eq_of_some hlk]
    · intro hnomatch
      cases hlk : mapLookup m (records.get ⟨i, hi⟩).reference with
      | none => rw [hget, mergeRef_eq_of_none hlk]
      | some v =>
        exfalso
        obtain ⟨hvmem, hvkey⟩ := mapLookup_some_mem hm hlk
        exact hnomatch v hvmem hvkey

end GradingAgent


namespace GradingAgent

/-- C5 witness: two searched records, a verdict array covering only the
first; the hypotheses of the merge theorem hold concretely and its
conclusion follows by applying it. -/
theorem claim5_witness :
    (([recU, recNoU] : List RefRecord).filter
        fun r => !r.search_urls.isEmpty).isEmpty = false ∧
    parse_json_from_text
      ((fun _ => sampleVerdictResponse) (verifyPrompt [recU, recNoU])) =
      .ok (.arr [sampleVerdict]) ∧
    (∀ v ∈ [sampleVerdict], HasHashableRef v) ∧
    (∃ out,
      verify_references_with_llm (fun _ => sampleVerdictResponse)
        [recU, recNoU] = .ok out ∧
      out.length = ([recU, recNoU] : List RefRecord).length ∧
      ∀ i (hi : i < ([recU, recNoU] : List RefRecord).length)
        (ho : i < out.length),
        ((∃ v ∈ [sampleVerdict], verdictKey v =
            some (.str (([recU, recNoU] : List RefRecord).get ⟨i, hi⟩).reference)) →
          ∃ v ∈ [sampleVerdict],
            verdictKey v =
              some (.str (([recU, recNoU] : List RefRecord).get ⟨i, hi⟩).reference) ∧
            out.get ⟨i, ho⟩ =
              { ([recU, recNoU] : List RefRecord).get ⟨i, hi⟩ with
                  verified := dictGet v "verified" (.bool false),
                  notes := dictGet v "notes"
                    ((([recU, recNoU] : List RefRecord).get ⟨i, hi⟩).notes) }) ∧
        ((∀ v ∈ [sampleVerdict], verdictKey v ≠
            some (.str (([recU, recNoU] : List RefRecord).get ⟨i, hi⟩).reference)) →
          out.get ⟨i, ho⟩ = ([recU, recNoU] : List RefRecord).get ⟨i, hi⟩)) := by
  have hverd : ∀ v ∈ [sampleVerdict], HasHashableRef v := by
    intro v hv
    rw [List.mem_singleton] at hv
    subst hv
    exact ⟨[("reference", .str "a"), ("verified", .bool true),
            ("notes", .str "confirmed")], .str "a", rfl, rfl, rfl⟩
  refine ⟨rfl, rfl, hverd, ?_⟩
  exact claim5_merge_subset (fun _ => sampleVerdictResponse)
    [recU, recNoU] [sampleVerdict] rfl rfl hverd

end GradingAgent

namespace GradingAgent

/-! ## Claim C8: idempotence of the verifier -/

/-- C8 counterexample: the claim says applying the verifier twice with a
deterministic judge yields the same `verified`/`notes` as applying it once;
but with the constant judge returning the unparseable response `"x"`, the
parse-failure marker is appended to the notes on every run, so the second
run's notes differ from the first run's. -/
theorem claim8_cx :
    verify_references_with_llm (fun _ => "x") [recU] =
      .ok [{ recU with notes := .str "n (LLM verification failed to parse)" }] ∧
    verify_references_with_llm (fun _ => "x")
      [{ recU with notes := .str "n (LLM verification failed to parse)" }] =
      .ok [{ recU with notes := .str "n (LLM verification failed to parse) (LLM verification failed to parse)" }] ∧
    (JValue.str "n (LLM verification failed to parse)" ≠
      JValue.str "n (LLM verification failed to parse) (LLM verification failed to parse)") := by
  refine ⟨rfl, rfl, fun h => ?_⟩
  injection h with h
  exact absurd h (by decide)

/-- C8 amended: the verifier is idempotent for a constant (hence
deterministic) judge whose single response parses as a JSON array that the
dict comprehension accepts: if one application returns a record list, a
second application over that list returns it unchanged. A judge whose
response fails to parse (the marker is re-appended each run), or a
deterministic judge that is sensitive to the prompt (which changes when
notes change), breaks idempotence. -/
theorem claim8_idempotent_on_verdict_arrays (resp : String)
    (records out : List RefRecord) (vs : List JValue)
    (m : List (JValue × JValue))
    (hparse : parse_json_from_text resp = .ok (.arr vs))
    (hmap : buildLlmMap vs = .ok m)
    (honce : verify_references_with_llm (fun _ => resp) records = .ok out) :
    verify_references_with_llm (fun _ => resp) out = .ok out := by
  unfold verify_references_with_llm at honce ⊢
  cases hc : (records.filter fun r => !r.search_urls.isEmpty).isEmpty with
  | true =>
    simp only [hc, if_true] at honce
    injection honce with honce
    subst honce
    simp [hc]
  | false =>
    simp only [hc, Bool.false_eq_true, if_false] at honce
    unfold verifyRefsCore at honce
    simp only [hparse, hmap] at honce
    injection honce with honce
    subst honce
    have hframe : (records.map (mergeRef m)).map frameOf = records.map frameOf := by
      rw [List.map_map]
      exact List.map_congr_left fun r _ => mergeRef_frameOf m r
    have hc2 : ((records.map (mergeRef m)).filter
        fun r => !r.search_urls.isEmpty).isEmpty = false := by
      rw [filter_urls_isEmpty_eq hframe, hc]
    simp only [hc2, Bool.false_eq_true, if_false]
    unfold verifyRefsCore
    simp only [hparse, hmap]
    rw [List.map_map]
    congr 1
    exact List.map_congr_left fun r _ => mergeRef_idem m r

/-- C8 witness: a concrete constant judge with a well-formed verdict array is
idempotent on one searched record. -/
theorem claim8_witness :
    parse_json_from_text sampleVerdictResponse = .ok (.arr [sampleVerdict]) ∧
    buildLlmMap [sampleVerdict] = .ok [(.str "a", sampleVerdict)] ∧
    verify_references_with_llm (fun _ => sampleVerdictResponse) [recU] =
      .ok [{ recU with verified := .bool true, notes := .str "confirmed" }] ∧
    verify_references_with_llm (fun _ => sampleVerdictResponse)
      [{ recU with verified := .bool true, notes := .str "confirmed" }] =
      .ok [{ recU with verified := .bool true, notes := .str "confirmed" }] :=
  ⟨rfl, rfl, rfl,
    claim8_idempotent_on_verdict_arrays sampleVerdictResponse [recU]
      [{ recU with verified := .bool true, notes := .str "confirmed" }]
      [sampleVerdict] [(.str "a", sampleVerdict)] rfl rfl rfl⟩

end GradingAgent

namespace GradingAgent

/-! ## Claim C9: pipeline structure of verify_bibliography -/

theorem search_single_reference_ref (o : SearchOutcome) (r : String) :
    (search_single_reference o r).1.reference = r := by
  cases o with
  | success urls => cases urls <;> rfl
  | timeout => rfl
  | failure e => rfl

theorem searchAll_eq (so : String → SearchOutcome) :
    ∀ rs : List String,
      searchAll so rs =
        (rs.map fun r => (search_single_reference (so r) r).1, rs) := by
  intro rs
  induction rs with
  | nil => rfl
  | cons r rest ih =>
    unfold searchAll
    rw [ih]
    rfl

theorem verify_bibliography_eq (llm : String → String)
    (so : String → SearchOutcome) (essay : String) :
    verify_bibliography llm so essay =
      if (extract_references_with_llm llm essay).isEmpty then (.ok [], [])
      else
        (verify_references_with_llm llm
          ((extract_references_with_llm llm essay).map
            fun r => (search_single_reference (so r) r).1),
         extract_references_with_llm llm essay) := by
  unfold verify_bibliography
  dsimp only
  rw [searchAll_eq]

/-- C9 counterexample: the claim says that when the extractor yields a
non-empty reference list the pipeline returns exactly one record per
extracted reference; but with a (constant) model response `["a"]` the
extractor yields one reference while the verifier stage - fed the same
response, an array whose element is a bare string - raises `TypeError`, so
the pipeline returns no records at all. -/
theorem claim9_cx :
    extract_references_with_llm (fun _ => "[\"a\"]") "essay" = ["a"] ∧
    (verify_bibliography (fun _ => "[\"a\"]") (fun _ => .success ["u"])
        "essay").1 =
      .error (.typeError "not subscriptable") :=
  ⟨rfl, rfl⟩

/-- C9 amended: if the extractor yields zero references, `verify_bibliography`
returns an empty sequence and issues no search calls; otherwise its search
trace is exactly the extracted references, one search per reference in
extraction order, and whenever the verification stage completes normally the
returned records are exactly one per extracted reference, in that order (a
malformed verifier verdict array can instead raise, as the counterexample
shows). -/
theorem claim9_pipeline (llm : String → String) (so : String → SearchOutcome)
    (essay : String) :
    (extract_references_with_llm llm essay = [] →
      verify_bibliography llm so essay = (.ok [], [])) ∧
    (verify_bibliography llm so essay).2 = extract_references_with_llm llm essay ∧
    (∀ out, (verify_bibliography llm so essay).1 = .ok out →
      out.map (fun r => r.reference) = extract_references_with_llm llm essay) := by
  rw [verify_bibliography_eq]
  cases hemp : (extract_references_with_llm llm essay).isEmpty with
  | true =>
    have he := List.isEmpty_iff.mp hemp
    rw [if_pos rfl]
    refine ⟨fun _ => rfl, by simp [he], ?_⟩
    intro out hout
    injection hout with hout
    subst hout
    simp [he]
  | false =>
    rw [if_neg Bool.false_ne_true]
    refine ⟨fun hcon => ?_, rfl, ?_⟩
    · rw [hcon] at hemp
      simp at hemp
    · intro out hout
      have hf := verify_frame hout
      have h1 : out.map (fun r => r.reference) =
          (((extract_references_with_llm llm essay).map
              fun r => (search_single_reference (so r) r).1).map
            fun r => r.reference) := by
        have h2 := congrArg (List.map Prod.fst) hf
        simpa [List.map_map, frameOf, Function.comp] using h2
      rw [h1, List.map_map]
      have h3 : ∀ r ∈ extract_references_with_llm llm essay,
          ((fun r : RefRecord => r.reference) ∘
            fun r => (search_single_reference (so r) r).1) r = id r :=
        fun r _ => search_single_reference_ref (so r) r
      rw [List.map_congr_left h3, List.map_id]

/-- C9 witness: a model that extracts no references makes the pipeline return
an empty sequence with an empty search trace. -/
theorem claim9_witness :
    extract_references_with_llm (fun _ => "[]") "essay" = [] ∧
    verify_bibliography (fun _ => "[]") (fun _ => .timeout) "essay" =
      (.ok [], []) :=
  ⟨rfl, (claim9_pipeline (fun _ => "[]") (fun _ => .timeout) "essay").1 rfl⟩

end GradingAgent
